import Mathlib

/-!
Shallow embedding of the connectivity core of an ESP32 IoT firmware:
the Wi-Fi manager (`wifi_manager.c`), the MQTT manager (`mqtt_manager.c`),
the NVS credential store (`nvs_memory.c`) and the web-application
change-network task (`web_application.c`).

Fixed-capacity C arrays with a `count` field are modelled as Lean lists
(the prefix of occupied slots); C strings are Lean `String`s; the bounded
`strlcpy` copies are modelled by explicit character truncation.  Blocking
waits on FreeRTOS event-group bits are modelled by an environment value
that states which signal arrived first (connected / failed-with-reason /
timeout), and driver side effects are recorded in explicit action traces.
-/

namespace EspFw

/- ------------------------------------------------------------------ -/
/- Constants from wifi_manager.h and mqtt_manager.h                    -/
/- ------------------------------------------------------------------ -/

def WFM_MAX_CREDS : Nat := 15
def WFM_SSID_MAX : Nat := 32
def WFM_PASS_MAX : Nat := 64
def WFM_SCAN_MAX : Nat := 32
def MQM_MAX_TOPIC : Nat := 128
def MQM_MAX_PAYLOAD : Nat := 256

/-- `strlcpy(dst, src, cap+1)`: at most `cap` characters are kept. -/
def strlcpyTrunc (cap : Nat) (s : String) : String := ⟨s.data.take cap⟩

theorem strlcpyTrunc_of_le (cap : Nat) (s : String) (h : s.length ≤ cap) :
    strlcpyTrunc cap s = s := by
  simp only [strlcpyTrunc]
  rw [List.take_of_length_le h]

/- ------------------------------------------------------------------ -/
/- Data model: credentials and scan entries (wifi_manager.h)          -/
/- ------------------------------------------------------------------ -/

/-- One saved credential (`wfm_cred_t`). -/
structure Cred where
  ssid : String
  pass : String
deriving DecidableEq

/-- One scan record / scan-list entry (`wifi_ap_record_t` name+rssi,
resp. `wfm_scan_ap_t`). -/
structure ScanAp where
  ssid : String
  rssi : Int
deriving DecidableEq

/- ------------------------------------------------------------------ -/
/- nvs_memory.c: add_wifi_creds_to_NVS_memory                          -/
/- ------------------------------------------------------------------ -/

/-- The first loop of `add_wifi_creds_to_NVS_memory`: find the first
entry whose ssid matches and overwrite its password in place
(`strlcpy` bounded by `WFM_PASS_MAX`); `none` when no entry matches. -/
def add_go (ssid pass : String) : List Cred → Option (List Cred)
  | [] => none
  | c :: cs =>
    if c.ssid = ssid then
      some ({ ssid := c.ssid, pass := strlcpyTrunc WFM_PASS_MAX pass } :: cs)
    else
      match add_go ssid pass cs with
      | some l => some (c :: l)
      | none => none

/-- `add_wifi_creds_to_NVS_memory` (nvs_memory.c): upsert of a
credential.  The returned `Bool` records whether the list was written
back to storage (`nvs_set_blob` + `nvs_commit`). -/
def add_wifi_creds_to_NVS_memory (ssid pass : String) (list : List Cred) :
    List Cred × Bool :=
  if ssid = "" then (list, false)
  else
    match add_go ssid pass list with
    | some l => (l, true)
    | none =>
      if list.length < WFM_MAX_CREDS then
        (list ++ [{ ssid := strlcpyTrunc WFM_SSID_MAX ssid,
                    pass := strlcpyTrunc WFM_PASS_MAX pass }], true)
      else (list, true)

/- ------------------------------------------------------------------ -/
/- nvs_memory.c: remove_wifi_creds_from_NVS_memory                     -/
/- ------------------------------------------------------------------ -/

/-- Index of the first credential whose ssid matches (the search loop of
`remove_wifi_creds_from_NVS_memory`). -/
def findCredIdx (ssid : String) : List Cred → Option Nat
  | [] => none
  | c :: cs =>
    if c.ssid = ssid then some 0
    else (findCredIdx ssid cs).map (· + 1)

/-- `remove_wifi_creds_from_NVS_memory` (nvs_memory.c): the first
matching entry is overwritten by the last occupied entry, the last slot
is cleared and the count is decremented; the list is then written back.
The returned `Bool` records whether the write-back happened. -/
def remove_wifi_creds_from_NVS_memory (ssid : String) (list : List Cred) :
    List Cred × Bool :=
  if ssid = "" then (list, false)
  else
    match findCredIdx ssid list with
    | some i =>
      ((list.set i (list.getLastD { ssid := "", pass := "" })).dropLast, true)
    | none => (list, true)

/- ------------------------------------------------------------------ -/
/- wifi_manager.c: the scan deduplication loop of wfm_scan_sync        -/
/- ------------------------------------------------------------------ -/

/-- The inner update of the dedup loop: the first entry with the given
name takes the new rssi when it is strictly stronger. -/
def scanUpdate (s : String) (v : Int) : List ScanAp → List ScanAp
  | [] => []
  | a :: rest =>
    if a.ssid = s then
      (if v > a.rssi then { ssid := a.ssid, rssi := v } :: rest else a :: rest)
    else a :: scanUpdate s v rest

/-- The dedup loop of `wfm_scan_sync` (wifi_manager.c): the loop stops as
soon as the list is full (`scan.count < WFM_SCAN_MAX` is part of the loop
condition), skips records with an empty name, updates the strongest rssi
for names already present and appends new names. -/
def buildScan : List ScanAp → List ScanAp → List ScanAp
  | acc, [] => acc
  | acc, r :: rest =>
    if WFM_SCAN_MAX ≤ acc.length then acc
    else if r.ssid = "" then buildScan acc rest
    else if acc.any (fun a => a.ssid == r.ssid) then
      buildScan (scanUpdate r.ssid r.rssi acc) rest
    else buildScan (acc ++ [{ ssid := r.ssid, rssi := r.rssi }]) rest

/-- The scan list built by `wfm_scan_sync` from raw driver records. -/
def wfm_scan_sync_build (raw : List ScanAp) : List ScanAp := buildScan [] raw




/- ------------------------------------------------------------------ -/
/- Helper lemmas for the credential store                              -/
/- ------------------------------------------------------------------ -/

theorem add_go_none_iff (ssid pass : String) (l : List Cred) :
    add_go ssid pass l = none ↔ ∀ c ∈ l, c.ssid ≠ ssid := by
  induction l with
  | nil => simp [add_go]
  | cons c cs ih =>
    by_cases h : c.ssid = ssid
    · simp [add_go, h]
    · cases hgo : add_go ssid pass cs with
      | some l' =>
        have hncs : ¬ ∀ d ∈ cs, d.ssid ≠ ssid := fun hall => by
          simp [ih.mpr hall] at hgo
        simp only [add_go, if_neg h, hgo]
        constructor
        · intro hx
          exact absurd hx (by simp)
        · intro hall
          exact absurd (fun d hd => hall d (List.mem_cons_of_mem c hd)) hncs
      | none =>
        have hcs : ∀ d ∈ cs, d.ssid ≠ ssid := ih.mp hgo
        simp only [add_go, if_neg h, hgo]
        simp only [List.forall_mem_cons]
        exact iff_of_true trivial ⟨h, hcs⟩

theorem add_go_first_match (ssid pass : String) (l : List Cred)
    (hex : ∃ c ∈ l, c.ssid = ssid) :
    ∃ l1 c l2, l = l1 ++ c :: l2 ∧ c.ssid = ssid ∧ (∀ d ∈ l1, d.ssid ≠ ssid) ∧
      add_go ssid pass l =
        some (l1 ++ { ssid := ssid, pass := strlcpyTrunc WFM_PASS_MAX pass } :: l2) := by
  induction l with
  | nil => simp at hex
  | cons c cs ih =>
    by_cases h : c.ssid = ssid
    · refine ⟨[], c, cs, by simp, h, by simp, ?_⟩
      simp [add_go, h]
    · have hex' : ∃ d ∈ cs, d.ssid = ssid := by
        rcases hex with ⟨d, hd, hds⟩
        rcases List.mem_cons.mp hd with rfl | hmem
        · exact absurd hds h
        · exact ⟨d, hmem, hds⟩
      rcases ih hex' with ⟨l1, c', l2, heq, hc', hl1, hgo⟩
      refine ⟨c :: l1, c', l2, by simp [heq], hc', ?_, ?_⟩
      · intro d hd
        rcases List.mem_cons.mp hd with rfl | hmem
        · exact h
        · exact hl1 d hmem
      · simp [add_go, if_neg h, hgo]

/-- C8: upsert behaviour of `add_wifi_creds_to_NVS_memory`: an existing
name has its secret replaced in place (count unchanged), a new name is
appended while the count is below `WFM_MAX_CREDS`, and at full capacity
the add is silently dropped. -/
theorem add_wifi_creds_to_NVS_memory_spec (ssid pass : String) (list : List Cred)
    (hs : ssid ≠ "") (hslen : ssid.length ≤ WFM_SSID_MAX)
    (hplen : pass.length ≤ WFM_PASS_MAX) :
    ((∃ c ∈ list, c.ssid = ssid) →
      ∃ l1 c l2, list = l1 ++ c :: l2 ∧ c.ssid = ssid ∧ (∀ d ∈ l1, d.ssid ≠ ssid) ∧
        (add_wifi_creds_to_NVS_memory ssid pass list).1 =
          l1 ++ { ssid := ssid, pass := pass } :: l2 ∧
        (add_wifi_creds_to_NVS_memory ssid pass list).1.length = list.length) ∧
    ((∀ c ∈ list, c.ssid ≠ ssid) → list.length < WFM_MAX_CREDS →
      (add_wifi_creds_to_NVS_memory ssid pass list).1 =
        list ++ [{ ssid := ssid, pass := pass }]) ∧
    ((∀ c ∈ list, c.ssid ≠ ssid) → list.length = WFM_MAX_CREDS →
      (add_wifi_creds_to_NVS_memory ssid pass list).1 = list) := by
  have hpt : strlcpyTrunc WFM_PASS_MAX pass = pass := strlcpyTrunc_of_le _ _ hplen
  have hst : strlcpyTrunc WFM_SSID_MAX ssid = ssid := strlcpyTrunc_of_le _ _ hslen
  refine ⟨?_, ?_, ?_⟩
  · intro hex
    rcases add_go_first_match ssid pass list hex with ⟨l1, c, l2, heq, hc, hl1, hgo⟩
    have hres : (add_wifi_creds_to_NVS_memory ssid pass list).1 =
        l1 ++ { ssid := ssid, pass := pass } :: l2 := by
      simp [add_wifi_creds_to_NVS_memory, if_neg hs, hgo, hpt]
    refine ⟨l1, c, l2, heq, hc, hl1, hres, ?_⟩
    rw [hres, heq]
    simp
  · intro hno hlen
    have hgo : add_go ssid pass list = none := (add_go_none_iff _ _ _).mpr hno
    simp [add_wifi_creds_to_NVS_memory, if_neg hs, hgo, hlen, hpt, hst]
  · intro hno hlen
    have hgo : add_go ssid pass list = none := (add_go_none_iff _ _ _).mpr hno
    simp [add_wifi_creds_to_NVS_memory, if_neg hs, hgo, hlen]

theorem add_wifi_creds_to_NVS_memory_spec_witness :
    (("home" : String) ≠ "" ∧ ("home" : String).length ≤ WFM_SSID_MAX ∧
      ("pw" : String).length ≤ WFM_PASS_MAX) ∧
    (add_wifi_creds_to_NVS_memory "home" "pw"
        [{ ssid := "a", pass := "b" }]).1 =
      [{ ssid := "a", pass := "b" }, { ssid := "home", pass := "pw" }] := by
  refine ⟨⟨by decide, by decide, by decide⟩, ?_⟩
  have h := (add_wifi_creds_to_NVS_memory_spec "home" "pw"
      [{ ssid := "a", pass := "b" }] (by decide) (by decide) (by decide)).2.1
  simpa using h (by decide) (by decide)

theorem findCredIdx_none_iff (ssid : String) (l : List Cred) :
    findCredIdx ssid l = none ↔ ∀ c ∈ l, c.ssid ≠ ssid := by
  induction l with
  | nil => simp [findCredIdx]
  | cons c cs ih =>
    by_cases h : c.ssid = ssid
    · simp [findCredIdx, h]
    · simp only [findCredIdx, if_neg h, List.forall_mem_cons, Option.map_eq_none']
      rw [ih]
      simp [h]

theorem findCredIdx_first (ssid : String) (l1 : List Cred) (c : Cred) (l2 : List Cred)
    (h1 : ∀ d ∈ l1, d.ssid ≠ ssid) (hc : c.ssid = ssid) :
    findCredIdx ssid (l1 ++ c :: l2) = some l1.length := by
  induction l1 with
  | nil => simp [findCredIdx, hc]
  | cons a t ih =>
    have ha : a.ssid ≠ ssid := h1 a (List.mem_cons_self a t)
    have ht : ∀ d ∈ t, d.ssid ≠ ssid := fun d hd => h1 d (List.mem_cons_of_mem a hd)
    simp [findCredIdx, ha, ih ht]

theorem set_append_len {α : Type} (l1 : List α) (c e : α) (l2 : List α) :
    (l1 ++ c :: l2).set l1.length e = l1 ++ e :: l2 := by
  induction l1 with
  | nil => simp
  | cons a t ih => simp [List.set, ih]

/-- C10 counterexample to the claim as stated: a remove with an empty
name returns through the early guard and does not write the (unchanged)
list back to storage. -/
theorem remove_wifi_creds_empty_name_counterexample :
    (remove_wifi_creds_from_NVS_memory "" [{ ssid := "a", pass := "p" }]).1 =
        [{ ssid := "a", pass := "p" }] ∧
    (remove_wifi_creds_from_NVS_memory "" [{ ssid := "a", pass := "p" }]).2 = false := by
  constructor <;> rfl

/-- C10 (amended): for a non-empty name, removing a stored credential
copies the last occupied entry over the first matching index, drops the
last slot and decrements the count (so stored order is not preserved),
and a remove that matches nothing writes the unchanged list back; a
remove with an empty name returns without touching storage. -/
theorem remove_wifi_creds_from_NVS_memory_spec (ssid : String) (list : List Cred)
    (hs : ssid ≠ "") :
    ((∀ c ∈ list, c.ssid ≠ ssid) →
      remove_wifi_creds_from_NVS_memory ssid list = (list, true)) ∧
    (∀ l1 c l2, list = l1 ++ c :: l2 → c.ssid = ssid → (∀ d ∈ l1, d.ssid ≠ ssid) →
      (remove_wifi_creds_from_NVS_memory ssid list).2 = true ∧
      (remove_wifi_creds_from_NVS_memory ssid list).1.length + 1 = list.length ∧
      (l2 = [] → (remove_wifi_creds_from_NVS_memory ssid list).1 = l1) ∧
      (∀ l2p x, l2 = l2p ++ [x] →
        (remove_wifi_creds_from_NVS_memory ssid list).1 = l1 ++ x :: l2p)) := by
  constructor
  · intro hno
    have hidx : findCredIdx ssid list = none := (findCredIdx_none_iff _ _).mpr hno
    simp [remove_wifi_creds_from_NVS_memory, if_neg hs, hidx]
  · intro l1 c l2 heq hc h1
    subst heq
    have hidx : findCredIdx ssid (l1 ++ c :: l2) = some l1.length :=
      findCredIdx_first ssid l1 c l2 h1 hc
    have hrm : remove_wifi_creds_from_NVS_memory ssid (l1 ++ c :: l2) =
        (((l1 ++ c :: l2).set l1.length
            ((l1 ++ c :: l2).getLastD { ssid := "", pass := "" })).dropLast, true) := by
      simp [remove_wifi_creds_from_NVS_memory, if_neg hs, hidx]
    refine ⟨by simp [hrm], ?_, ?_, ?_⟩
    · rw [hrm]
      simp only [List.length_dropLast, List.length_set, List.length_append,
        List.length_cons]
      omega
    · intro h2
      subst h2
      rw [hrm]
      simp only [List.getLastD_concat, set_append_len, List.dropLast_concat]
    · intro l2p x h2
      subst h2
      rw [hrm]
      have hlast : (l1 ++ c :: (l2p ++ [x])).getLastD { ssid := "", pass := "" } = x := by
        rw [show l1 ++ c :: (l2p ++ [x]) = (l1 ++ c :: l2p) ++ [x] by simp]
        exact List.getLastD_concat _ _ _
      rw [hlast, set_append_len]
      rw [show l1 ++ x :: (l2p ++ [x]) = (l1 ++ x :: l2p) ++ [x] by simp]
      exact List.dropLast_concat

theorem remove_wifi_creds_from_NVS_memory_spec_witness :
    (("b" : String) ≠ "") ∧
    (remove_wifi_creds_from_NVS_memory "b"
        [{ ssid := "a", pass := "1" }, { ssid := "b", pass := "2" },
         { ssid := "c", pass := "3" }]).1 =
      [{ ssid := "a", pass := "1" }, { ssid := "c", pass := "3" }] := by
  refine ⟨by decide, ?_⟩
  have h := (remove_wifi_creds_from_NVS_memory_spec "b"
      [{ ssid := "a", pass := "1" }, { ssid := "b", pass := "2" },
       { ssid := "c", pass := "3" }] (by decide)).2
      [{ ssid := "a", pass := "1" }] { ssid := "b", pass := "2" }
      [{ ssid := "c", pass := "3" }] (by decide) (by decide) (by decide)
  simpa using h.2.2.2 [] { ssid := "c", pass := "3" } (by decide)

/- ------------------------------------------------------------------ -/
/- ESP-IDF return codes (the values the embedded code distinguishes)   -/
/- ------------------------------------------------------------------ -/

inductive EspRet where
  | ok
  | fail
  | invalidArg
  | invalidState
deriving DecidableEq

/- ------------------------------------------------------------------ -/
/- wifi_manager.c: wfm_stop_ap                                         -/
/- ------------------------------------------------------------------ -/

/-- Operating mode of the Wi-Fi manager (`wfm_mode_e`). -/
inductive WfmMode where
  | modeNone
  | sta
  | ap
deriving DecidableEq

/-- The part of the `wfm_t` context read and written by `wfm_stop_ap`:
the `started` life-cycle flag (set only by the STA start/stop events),
the mode, and whether the AP network interface exists. -/
structure ApCtx where
  started : Bool
  mode : WfmMode
  apNetif : Bool
deriving DecidableEq

/-- Driver calls `wfm_stop_ap` makes on its teardown path. -/
inductive ApAct where
  | wifiStop
  | waitStopped
  | wifiDeinit
  | destroyApNetif
deriving DecidableEq

/-- `wfm_stop_ap` (wifi_manager.c): returns OK untouched unless the
driver is started AND the mode is AP; otherwise stops and deinitializes
the driver, destroys the AP interface and sets the mode to none. -/
def wfm_stop_ap (wfm : ApCtx) : EspRet × ApCtx × List ApAct :=
  if wfm.started = false then (EspRet.ok, wfm, [])
  else if wfm.mode ≠ WfmMode.ap then (EspRet.ok, wfm, [])
  else (EspRet.ok,
        { started := wfm.started, mode := WfmMode.modeNone, apNetif := false },
        [ApAct.wifiStop, ApAct.waitStopped, ApAct.wifiDeinit, ApAct.destroyApNetif])

/-- C9 counterexample to the claim as stated: a context that is in
access-point mode but whose `started` flag is false (the normal
situation after `wfm_start_ap`, since only WIFI_EVENT_STA_START sets
`started`) is NOT torn down: `wfm_stop_ap` returns OK, performs no
driver call, and leaves the mode at AP. -/
theorem wfm_stop_ap_ap_mode_counterexample :
    (wfm_stop_ap { started := false, mode := WfmMode.ap, apNetif := true }).1 =
        EspRet.ok ∧
    (wfm_stop_ap { started := false, mode := WfmMode.ap, apNetif := true }).2.1 =
        { started := false, mode := WfmMode.ap, apNetif := true } ∧
    (wfm_stop_ap { started := false, mode := WfmMode.ap, apNetif := true }).2.2 =
        [] := by
  decide

/-- C9 (amended): for every context not in access-point mode,
`wfm_stop_ap` is a no-op returning success with the state unchanged; for
every context in access-point mode whose `started` flag is set, it stops
and deinitializes the radio, destroys the AP interface and sets the mode
to none.  When the context is in AP mode with `started` false, the call
is also a success no-op and the AP is left up. -/
theorem wfm_stop_ap_spec (wfm : ApCtx) :
    (wfm.mode ≠ WfmMode.ap → wfm_stop_ap wfm = (EspRet.ok, wfm, [])) ∧
    (wfm.mode = WfmMode.ap → wfm.started = true →
      wfm_stop_ap wfm =
        (EspRet.ok,
         { started := wfm.started, mode := WfmMode.modeNone, apNetif := false },
         [ApAct.wifiStop, ApAct.waitStopped, ApAct.wifiDeinit,
          ApAct.destroyApNetif])) ∧
    (wfm.mode = WfmMode.ap → wfm.started = false →
      wfm_stop_ap wfm = (EspRet.ok, wfm, [])) := by
  refine ⟨?_, ?_, ?_⟩
  · intro hm
    by_cases hst : wfm.started = false
    · simp [wfm_stop_ap, hst]
    · simp [wfm_stop_ap, hst, hm]
  · intro hm hst
    simp [wfm_stop_ap, hst, hm]
  · intro hm hst
    simp [wfm_stop_ap, hst]

theorem wfm_stop_ap_spec_witness :
    ({ started := true, mode := WfmMode.ap, apNetif := true } : ApCtx).mode =
        WfmMode.ap ∧
    (wfm_stop_ap { started := true, mode := WfmMode.ap, apNetif := true }).2.1.mode =
        WfmMode.modeNone := by
  refine ⟨rfl, ?_⟩
  have h := (wfm_stop_ap_spec
      { started := true, mode := WfmMode.ap, apNetif := true }).2.1 rfl rfl
  rw [h]

/- ------------------------------------------------------------------ -/
/- mqtt_manager.c: mqm_publish_ex                                      -/
/- ------------------------------------------------------------------ -/

/-- The part of the `mqm_t` context read by `mqm_publish_ex`: whether
the underlying esp-mqtt client handle exists, and the `connected`
flag. -/
structure MqmCtx where
  client : Bool
  connected : Bool
deriving DecidableEq

/-- `mqm_publish_ex` (mqtt_manager.c).  `none` arguments model NULL
pointers; `transportAccepts` models the sign of the message id returned
by `esp_mqtt_client_publish`.  The second component records whether the
underlying transport publish was invoked at all. -/
def mqm_publish_ex (mqm : Option MqmCtx) (topic msg : Option String)
    (transportAccepts : Bool) : EspRet × Bool :=
  match mqm, topic, msg with
  | some m, some _, some _ =>
    if m.client = false then (EspRet.invalidArg, false)
    else if m.connected = false then (EspRet.invalidState, false)
    else if transportAccepts then (EspRet.ok, true) else (EspRet.fail, true)
  | _, _, _ => (EspRet.invalidArg, false)

/-- C6: `mqm_publish_ex` rejects an absent context, topic or message
with an invalid-argument error, rejects a disconnected manager (with a
live client handle, as guaranteed by a successful `mqm_init`) with an
invalid-state error, and in both cases returns without invoking the
underlying transport publish. -/
theorem mqm_publish_ex_guards (mqm : Option MqmCtx) (topic msg : Option String)
    (ta : Bool) :
    ((mqm = none ∨ topic = none ∨ msg = none) →
      mqm_publish_ex mqm topic msg ta = (EspRet.invalidArg, false)) ∧
    (∀ m, mqm = some m → m.client = true → m.connected = false →
      topic ≠ none → msg ≠ none →
      mqm_publish_ex mqm topic msg ta = (EspRet.invalidState, false)) := by
  constructor
  · intro h
    cases mqm <;> cases topic <;> cases msg <;> simp_all [mqm_publish_ex]
  · intro m hm hcl hco ht hg
    subst hm
    cases topic with
    | none => exact absurd rfl ht
    | some t =>
      cases msg with
      | none => exact absurd rfl hg
      | some g => simp [mqm_publish_ex, hcl, hco]

theorem mqm_publish_ex_guards_witness :
    mqm_publish_ex (some { client := true, connected := false })
        (some "t") (some "m") true = (EspRet.invalidState, false) ∧
    mqm_publish_ex none (some "t") (some "m") true = (EspRet.invalidArg, false) :=
  ⟨(mqm_publish_ex_guards (some { client := true, connected := false })
      (some "t") (some "m") true).2 _ rfl rfl rfl (by simp) (by simp),
   (mqm_publish_ex_guards none (some "t") (some "m") true).1 (Or.inl rfl)⟩

/- ------------------------------------------------------------------ -/
/- mqtt_manager.c: MQTT_EVENT_DATA handling in mqm_event_core          -/
/- ------------------------------------------------------------------ -/

/-- One `mqm_topic_entry_t`: both the topic string and the handler are
pointers that may be NULL.  Handlers are identified by a number. -/
structure TopicEntry where
  topic : Option String
  handler : Option Nat
deriving DecidableEq

/-- A callback invocation observed while processing one inbound
message. -/
inductive Invocation where
  | generic (topic payload : String)
  | handler (h : Nat) (payload : String)
deriving DecidableEq

/-- The topic-table loop of the MQTT_EVENT_DATA branch of
`mqm_event_core`: entries with a NULL topic are skipped, the first entry
whose topic compares equal (`strcmp == 0`) has its handler invoked with
the payload only (if the handler is non-NULL) and the loop `break`s. -/
def dispatchTable : List TopicEntry → String → String → List Invocation
  | [], _, _ => []
  | e :: rest, topic, payload =>
    match e.topic with
    | some t =>
      if t = topic then
        (match e.handler with
         | some h => [Invocation.handler h payload]
         | none => [])
      else dispatchTable rest topic payload
    | none => dispatchTable rest topic payload

/-- The MQTT_EVENT_DATA branch of `mqm_event_core` (mqtt_manager.c):
topic and payload are copied into bounded buffers (truncation to
`MQM_MAX_TOPIC - 1` resp. `MQM_MAX_PAYLOAD - 1` characters), the generic
`on_message` callback fires first when registered, then the topic table
is scanned. -/
def mqm_event_data (hasGenericCb : Bool) (table : List TopicEntry)
    (topic payload : String) : List Invocation :=
  let t := strlcpyTrunc (MQM_MAX_TOPIC - 1) topic
  let p := strlcpyTrunc (MQM_MAX_PAYLOAD - 1) payload
  (if hasGenericCb then [Invocation.generic t p] else []) ++ dispatchTable table t p

theorem dispatchTable_eq_find (table : List TopicEntry) (t p : String) :
    dispatchTable table t p =
      (match table.find? (fun e => decide (e.topic = some t)) with
       | some e =>
         (match e.handler with
          | some h => [Invocation.handler h p]
          | none => [])
       | none => []) := by
  induction table with
  | nil => simp [dispatchTable, List.find?]
  | cons e rest ih =>
    cases he : e.topic with
    | none => simp [dispatchTable, he, List.find?_cons, ih]
    | some tp =>
      by_cases h : tp = t
      · subst h
        simp [dispatchTable, he, List.find?_cons]
      · simp [dispatchTable, he, h, List.find?_cons, ih]

/-- C7: after truncation into the bounded buffers, the generic message
callback (when present) fires first with topic and payload, and then
exactly the first table entry whose (non-NULL) topic equals the received
topic character-for-character has its handler invoked with the payload
only; later entries are never reached, and with no matching entry no
table handler runs at all. -/
theorem mqm_event_data_dispatch (g : Bool) (table : List TopicEntry)
    (topic payload : String) :
    mqm_event_data g table topic payload =
      (if g then
        [Invocation.generic (strlcpyTrunc (MQM_MAX_TOPIC - 1) topic)
          (strlcpyTrunc (MQM_MAX_PAYLOAD - 1) payload)]
       else []) ++
      (match table.find?
          (fun e => decide (e.topic = some (strlcpyTrunc (MQM_MAX_TOPIC - 1) topic))) with
       | some e =>
         (match e.handler with
          | some h =>
            [Invocation.handler h (strlcpyTrunc (MQM_MAX_PAYLOAD - 1) payload)]
          | none => [])
       | none => []) := by
  rw [mqm_event_data, dispatchTable_eq_find]

/- ------------------------------------------------------------------ -/
/- Scan deduplication: invariants and maximum-signal analysis          -/
/- ------------------------------------------------------------------ -/

/-- The signal strengths of all raw records bearing a given name. -/
def rawRssis (raw : List ScanAp) (s : String) : List Int :=
  (raw.filter (fun r => decide (r.ssid = s))).map (fun r => r.rssi)

theorem scanUpdate_map_ssid (s : String) (v : Int) (l : List ScanAp) :
    (scanUpdate s v l).map (fun a => a.ssid) = l.map (fun a => a.ssid) := by
  induction l with
  | nil => rfl
  | cons a rest ih =>
    by_cases h : a.ssid = s
    · by_cases hv : v > a.rssi <;> simp [scanUpdate, h, hv]
    · simp [scanUpdate, h, ih]

theorem scanUpdate_length (s : String) (v : Int) (l : List ScanAp) :
    (scanUpdate s v l).length = l.length := by
  have h := congrArg List.length (scanUpdate_map_ssid s v l)
  simpa using h

theorem buildScan_inv (raw : List ScanAp) : ∀ acc : List ScanAp,
    (∀ a ∈ acc, a.ssid ≠ "") → ((acc.map (fun a => a.ssid)).Nodup) →
    acc.length ≤ WFM_SCAN_MAX →
    (∀ a ∈ buildScan acc raw, a.ssid ≠ "") ∧
    (((buildScan acc raw).map (fun a => a.ssid)).Nodup) ∧
    (buildScan acc raw).length ≤ WFM_SCAN_MAX := by
  induction raw with
  | nil => intro acc h1 h2 h3; exact ⟨h1, h2, h3⟩
  | cons r rest ih =>
    intro acc h1 h2 h3
    by_cases hcap : WFM_SCAN_MAX ≤ acc.length
    · simp only [buildScan, if_pos hcap]
      exact ⟨h1, h2, h3⟩
    · by_cases hempty : r.ssid = ""
      · simp only [buildScan, if_neg hcap, if_pos hempty]
        exact ih acc h1 h2 h3
      · by_cases hany : acc.any (fun a => a.ssid == r.ssid)
        · simp only [buildScan, if_neg hcap, if_neg hempty, if_pos hany]
          refine ih _ ?_ ?_ ?_
          · intro a ha
            have : a.ssid ∈ (scanUpdate r.ssid r.rssi acc).map (fun a => a.ssid) :=
              List.mem_map_of_mem _ ha
            rw [scanUpdate_map_ssid] at this
            rcases List.mem_map.mp this with ⟨b, hb, hbe⟩
            rw [← hbe]
            exact h1 b hb
          · rw [scanUpdate_map_ssid]; exact h2
          · rw [scanUpdate_length]; exact h3
        · simp only [buildScan, if_neg hcap, if_neg hempty, if_neg hany]
          have hnotin : ∀ a ∈ acc, a.ssid ≠ r.ssid := by
            intro a ha hcontra
            apply hany
            simp only [List.any_eq_true, beq_iff_eq]
            exact ⟨a, ha, hcontra⟩
          refine ih _ ?_ ?_ ?_
          · intro a ha
            rcases List.mem_append.mp ha with h | h
            · exact h1 a h
            · simp at h; rw [h]; exact hempty
          · rw [List.map_append]
            simp only [List.map_cons, List.map_nil]
            rw [List.nodup_append]
            refine ⟨h2, List.nodup_singleton _, ?_⟩
            intro x hx
            rcases List.mem_map.mp hx with ⟨b, hb, hbe⟩
            simp only [List.mem_singleton]
            rw [← hbe]
            intro hcontra
            exact hnotin b hb hcontra
          · rw [List.length_append]
            simp only [List.length_cons, List.length_nil]
            omega

/-- C4 counterexample to the claim as stated: with 32 distinct names
followed by a stronger duplicate of the first name, the dedup loop exits
at capacity before seeing the duplicate, so the stored strength for that
name is NOT the maximum over all raw records. -/
theorem wfm_scan_sync_build_counterexample :
    ({ ssid := "n0", rssi := (0 : Int) } : ScanAp) ∈
        wfm_scan_sync_build
          ((List.range 32).map
              (fun i => { ssid := "n" ++ toString i, rssi := (0 : Int) }) ++
            [{ ssid := "n0", rssi := (10 : Int) }]) ∧
    ({ ssid := "n0", rssi := (10 : Int) } : ScanAp) ∈
        ((List.range 32).map
            (fun i => { ssid := "n" ++ toString i, rssi := (0 : Int) }) ++
          [{ ssid := "n0", rssi := (10 : Int) }]) ∧
    ¬ ((10 : Int) ≤ (0 : Int)) := by
  refine ⟨by decide, by decide, by decide⟩

/-- The same dedup loop without the capacity cut-off; used to analyse
runs in which the capacity is never reached. -/
def buildNoCap : List ScanAp → List ScanAp → List ScanAp
  | acc, [] => acc
  | acc, r :: rest =>
    if r.ssid = "" then buildNoCap acc rest
    else if acc.any (fun a => a.ssid == r.ssid) then
      buildNoCap (scanUpdate r.ssid r.rssi acc) rest
    else buildNoCap (acc ++ [{ ssid := r.ssid, rssi := r.rssi }]) rest

/-- Signal stored for a name in a scan list (first entry wins). -/
def lookupRssi : List ScanAp → String → Option Int
  | [], _ => none
  | a :: rest, s => if a.ssid = s then some a.rssi else lookupRssi rest s

def optMax : Option Int → Option Int → Option Int
  | none, b => b
  | some v, none => some v
  | some v, some w => some (max v w)

/-- Strongest signal among the raw records bearing a name. -/
def rawMax (s : String) : List ScanAp → Option Int
  | [] => none
  | r :: rest =>
    if r.ssid = s then optMax (some r.rssi) (rawMax s rest) else rawMax s rest

theorem optMax_none_right (a : Option Int) : optMax a none = a := by
  cases a <;> rfl

theorem optMax_assoc (a b c : Option Int) :
    optMax (optMax a b) c = optMax a (optMax b c) := by
  cases a <;> cases b <;> cases c <;> simp [optMax, max_assoc]

theorem buildScan_len_mono (raw : List ScanAp) :
    ∀ acc : List ScanAp, acc.length ≤ (buildScan acc raw).length := by
  induction raw with
  | nil => intro acc; simp [buildScan]
  | cons r rest ih =>
    intro acc
    by_cases hcap : WFM_SCAN_MAX ≤ acc.length
    · simp [buildScan, hcap]
    · by_cases he : r.ssid = ""
      · simp only [buildScan, if_neg hcap, if_pos he]
        exact ih acc
      · by_cases hany : acc.any (fun a => a.ssid == r.ssid)
        · simp only [buildScan, if_neg hcap, if_neg he, if_pos hany]
          have h := ih (scanUpdate r.ssid r.rssi acc)
          rw [scanUpdate_length] at h
          exact h
        · simp only [buildScan, if_neg hcap, if_neg he, if_neg hany]
          have h := ih (acc ++ [{ ssid := r.ssid, rssi := r.rssi }])
          have h2 : acc.length ≤ (acc ++ [({ ssid := r.ssid, rssi := r.rssi } : ScanAp)]).length := by
            simp
          exact le_trans h2 h

theorem buildScan_eq_noCap (raw : List ScanAp) :
    ∀ acc : List ScanAp, (buildScan acc raw).length < WFM_SCAN_MAX →
      buildScan acc raw = buildNoCap acc raw := by
  induction raw with
  | nil => intro acc _; rfl
  | cons r rest ih =>
    intro acc h
    by_cases hcap : WFM_SCAN_MAX ≤ acc.length
    · exfalso
      simp only [buildScan, if_pos hcap] at h
      omega
    · by_cases he : r.ssid = ""
      · simp only [buildScan, if_neg hcap, if_pos he] at h ⊢
        simp only [buildNoCap, if_pos he]
        exact ih acc h
      · by_cases hany : acc.any (fun a => a.ssid == r.ssid)
        · simp only [buildScan, if_neg hcap, if_neg he, if_pos hany] at h ⊢
          simp only [buildNoCap, if_neg he, if_pos hany]
          exact ih _ h
        · simp only [buildScan, if_neg hcap, if_neg he, if_neg hany] at h ⊢
          simp only [buildNoCap, if_neg he, if_neg hany]
          exact ih _ h

theorem lookupRssi_scanUpdate_ne (t : String) (v : Int) (s : String) (hst : s ≠ t) :
    ∀ l : List ScanAp, lookupRssi (scanUpdate t v l) s = lookupRssi l s := by
  intro l
  induction l with
  | nil => rfl
  | cons a rest ih =>
    by_cases hat : a.ssid = t
    · have has : a.ssid ≠ s := by rw [hat]; exact fun hc => hst hc.symm
      by_cases hv : v > a.rssi
      · simp [scanUpdate, hat, hv, lookupRssi, has, hst.symm]
      · simp [scanUpdate, hat, hv, lookupRssi, has, hst.symm]
    · simp [scanUpdate, hat, lookupRssi, ih]

theorem lookupRssi_scanUpdate_self (t : String) (v : Int) :
    ∀ (l : List ScanAp) (w : Int), lookupRssi l t = some w →
      lookupRssi (scanUpdate t v l) t = some (max w v) := by
  intro l
  induction l with
  | nil => intro w h; cases h
  | cons a rest ih =>
    intro w h
    by_cases hat : a.ssid = t
    · have hw : w = a.rssi := by
        simp only [lookupRssi, if_pos hat] at h
        exact (Option.some_inj.mp h).symm
      subst hw
      by_cases hv : v > a.rssi
      · simp only [scanUpdate, if_pos hat, if_pos hv, lookupRssi]
        rw [max_eq_right (le_of_lt hv)]
      · simp only [scanUpdate, if_pos hat, if_neg hv, lookupRssi, if_pos hat]
        rw [max_eq_left (not_lt.mp hv)]
    · simp only [lookupRssi, if_neg hat] at h
      simp only [scanUpdate, if_neg hat, lookupRssi, if_neg hat]
      exact ih w h

theorem lookupRssi_append_single (l : List ScanAp) (e : ScanAp) (s : String) :
    lookupRssi (l ++ [e]) s =
      (match lookupRssi l s with
       | some w => some w
       | none => if e.ssid = s then some e.rssi else none) := by
  induction l with
  | nil => simp [lookupRssi]
  | cons a rest ih =>
    by_cases has : a.ssid = s
    · simp [lookupRssi, has]
    · simp only [List.cons_append, lookupRssi, if_neg has]
      exact ih

theorem lookupRssi_none_of_not_any (l : List ScanAp) (t : String)
    (h : ¬ (l.any (fun a => a.ssid == t) = true)) :
    lookupRssi l t = none := by
  induction l with
  | nil => rfl
  | cons a rest ih =>
    simp only [List.any_cons, Bool.or_eq_true, beq_iff_eq, not_or] at h
    simp only [lookupRssi, if_neg h.1]
    exact ih (by simpa using h.2)

theorem lookupRssi_some_of_any (l : List ScanAp) (t : String)
    (h : l.any (fun a => a.ssid == t) = true) :
    ∃ w, lookupRssi l t = some w := by
  induction l with
  | nil => simp at h
  | cons a rest ih =>
    by_cases hat : a.ssid = t
    · exact ⟨a.rssi, by simp [lookupRssi, hat]⟩
    · simp only [List.any_cons, Bool.or_eq_true, beq_iff_eq] at h
      rcases h with h | h
      · exact absurd h hat
      · rcases ih h with ⟨w, hw⟩
        exact ⟨w, by simp [lookupRssi, hat, hw]⟩

theorem rawMax_cons_self (r : ScanAp) (rest : List ScanAp) :
    rawMax r.ssid (r :: rest) = optMax (some r.rssi) (rawMax r.ssid rest) := by
  simp [rawMax]

theorem rawMax_cons_ne (s : String) (r : ScanAp) (rest : List ScanAp)
    (h : r.ssid ≠ s) : rawMax s (r :: rest) = rawMax s rest := by
  simp [rawMax, h]

theorem buildNoCap_lookup (s : String) (hs : s ≠ "") :
    ∀ (raw acc : List ScanAp),
      lookupRssi (buildNoCap acc raw) s = optMax (lookupRssi acc s) (rawMax s raw) := by
  intro raw
  induction raw with
  | nil =>
    intro acc
    simp only [buildNoCap, rawMax, optMax_none_right]
  | cons r rest ih =>
    intro acc
    by_cases he : r.ssid = ""
    · have hrs : r.ssid ≠ s := by rw [he]; exact fun hc => hs hc.symm
      simp only [buildNoCap, if_pos he, rawMax, if_neg hrs]
      exact ih acc
    · by_cases hany : acc.any (fun a => a.ssid == r.ssid)
      · by_cases hrs : r.ssid = s
        · subst hrs
          rcases lookupRssi_some_of_any acc r.ssid hany with ⟨w, hw⟩
          simp only [buildNoCap, if_neg he, if_pos hany]
          rw [ih (scanUpdate r.ssid r.rssi acc)]
          rw [lookupRssi_scanUpdate_self r.ssid r.rssi acc w hw]
          rw [rawMax_cons_self, hw, ← optMax_assoc]
          rfl
        · simp only [buildNoCap, if_neg he, if_pos hany]
          rw [ih (scanUpdate r.ssid r.rssi acc)]
          rw [lookupRssi_scanUpdate_ne r.ssid r.rssi s (fun hc => hrs hc.symm)]
          rw [rawMax_cons_ne s r rest hrs]
      · by_cases hrs : r.ssid = s
        · subst hrs
          have hnone : lookupRssi acc r.ssid = none :=
            lookupRssi_none_of_not_any acc r.ssid hany
          simp only [buildNoCap, if_neg he, if_neg hany]
          rw [ih (acc ++ [ScanAp.mk r.ssid r.rssi])]
          rw [lookupRssi_append_single, hnone]
          rw [rawMax_cons_self]
          simp [optMax]
        · simp only [buildNoCap, if_neg he, if_neg hany]
          rw [ih (acc ++ [ScanAp.mk r.ssid r.rssi])]
          rw [lookupRssi_append_single]
          rw [rawMax_cons_ne s r rest hrs]
          cases hacc : lookupRssi acc s with
          | none => simp [hrs]
          | some w => rfl

theorem rawRssis_cons (r : ScanAp) (rest : List ScanAp) (s : String) :
    rawRssis (r :: rest) s =
      (if r.ssid = s then r.rssi :: rawRssis rest s else rawRssis rest s) := by
  by_cases h : r.ssid = s <;> simp [rawRssis, h]

theorem rawMax_none_rssis (s : String) :
    ∀ l : List ScanAp, rawMax s l = none → rawRssis l s = [] := by
  intro l
  induction l with
  | nil => intro _; rfl
  | cons r rest ih =>
    intro h
    by_cases hrs : r.ssid = s
    · exfalso
      rw [show s = r.ssid from hrs.symm] at h
      rw [rawMax_cons_self] at h
      cases hm : rawMax r.ssid rest <;> rw [hm] at h <;> simp [optMax] at h
    · rw [rawMax_cons_ne s r rest hrs] at h
      rw [rawRssis_cons, if_neg hrs]
      exact ih h

theorem rawMax_spec (s : String) :
    ∀ (raw : List ScanAp) (v : Int), rawMax s raw = some v →
      v ∈ rawRssis raw s ∧ ∀ w ∈ rawRssis raw s, w ≤ v := by
  intro raw
  induction raw with
  | nil => intro v h; cases h
  | cons r rest ih =>
    intro v h
    by_cases hrs : r.ssid = s
    · subst hrs
      rw [rawMax_cons_self] at h
      rw [rawRssis_cons, if_pos rfl]
      cases hm : rawMax r.ssid rest with
      | none =>
        rw [hm, optMax_none_right] at h
        have hv : v = r.rssi := (Option.some_inj.mp h).symm
        subst hv
        have hempty := rawMax_none_rssis r.ssid rest hm
        rw [hempty]
        exact ⟨List.mem_singleton_self _, by
          intro w hw
          rw [List.mem_singleton.mp hw]⟩
      | some m =>
        rw [hm] at h
        have hv : v = max r.rssi m := (Option.some_inj.mp h).symm
        subst hv
        rcases ih m hm with ⟨hmem, hbound⟩
        constructor
        · rcases le_total r.rssi m with hle | hle
          · rw [max_eq_right hle]
            exact List.mem_cons_of_mem _ hmem
          · rw [max_eq_left hle]
            exact List.mem_cons_self _ _
        · intro w hw
          rcases List.mem_cons.mp hw with rfl | hw
          · exact le_max_left _ _
          · exact le_trans (hbound w hw) (le_max_right _ _)
    · rw [rawMax_cons_ne s r rest hrs] at h
      rw [rawRssis_cons, if_neg hrs]
      exact ih v h

theorem lookupRssi_self (a : ScanAp) :
    ∀ l : List ScanAp, ((l.map (fun x => x.ssid)).Nodup) → a ∈ l →
      lookupRssi l a.ssid = some a.rssi := by
  intro l
  induction l with
  | nil => intro _ ha; cases ha
  | cons b rest ih =>
    intro hn ha
    rcases List.mem_cons.mp ha with rfl | hmem
    · simp [lookupRssi]
    · have hb : b.ssid ≠ a.ssid := by
        intro hc
        rw [List.map_cons, List.nodup_cons] at hn
        exact hn.1 (hc ▸ List.mem_map_of_mem (fun x => x.ssid) hmem)
      rw [List.map_cons, List.nodup_cons] at hn
      simp only [lookupRssi, if_neg hb]
      exact ih hn.2 hmem

/-- C4 (amended): the scan list built by `wfm_scan_sync` has at most 32
entries, excludes empty names and holds at most one entry per name; and
whenever the capacity cut-off is not reached (result shorter than 32
entries) each stored strength is the maximum observed among all raw
records bearing that name.  Once the result fills to capacity, raw
records after the fill point are ignored entirely — including stronger
duplicates of names already stored — so the last clause of the original
claim fails for such inputs. -/
theorem wfm_scan_sync_build_spec (raw : List ScanAp) :
    (wfm_scan_sync_build raw).length ≤ WFM_SCAN_MAX ∧
    (∀ a ∈ wfm_scan_sync_build raw, a.ssid ≠ "") ∧
    (((wfm_scan_sync_build raw).map (fun a => a.ssid)).Nodup) ∧
    ((wfm_scan_sync_build raw).length < WFM_SCAN_MAX →
      ∀ a ∈ wfm_scan_sync_build raw,
        a.rssi ∈ rawRssis raw a.ssid ∧ ∀ w ∈ rawRssis raw a.ssid, w ≤ a.rssi) := by
  obtain ⟨h1, h2, h3⟩ := buildScan_inv raw []
    (by intro a ha; cases ha) (List.nodup_nil) (by simp [WFM_SCAN_MAX])
  refine ⟨h3, h1, h2, ?_⟩
  intro hlen a ha
  have hs : a.ssid ≠ "" := h1 a ha
  have hlook : lookupRssi (wfm_scan_sync_build raw) a.ssid = some a.rssi :=
    lookupRssi_self a _ h2 ha
  have heq : wfm_scan_sync_build raw = buildNoCap [] raw :=
    buildScan_eq_noCap raw [] hlen
  rw [heq, buildNoCap_lookup a.ssid hs raw []] at hlook
  have hraw : rawMax a.ssid raw = some a.rssi := by
    simpa [lookupRssi, optMax] using hlook
  exact rawMax_spec a.ssid raw a.rssi hraw

theorem wfm_scan_sync_build_spec_witness :
    (wfm_scan_sync_build
        [{ ssid := "a", rssi := -50 }, { ssid := "b", rssi := -60 },
         { ssid := "a", rssi := -40 }]).length < WFM_SCAN_MAX ∧
    ({ ssid := "a", rssi := (-40 : Int) } : ScanAp) ∈
      wfm_scan_sync_build
        [{ ssid := "a", rssi := -50 }, { ssid := "b", rssi := -60 },
         { ssid := "a", rssi := -40 }] ∧
    (∀ w ∈ rawRssis
        [{ ssid := "a", rssi := -50 }, { ssid := "b", rssi := -60 },
         { ssid := "a", rssi := -40 }] "a", w ≤ (-40 : Int)) := by
  refine ⟨by decide, by decide, ?_⟩
  have h := (wfm_scan_sync_build_spec
      [{ ssid := "a", rssi := -50 }, { ssid := "b", rssi := -60 },
       { ssid := "a", rssi := -40 }]).2.2.2 (by decide)
      { ssid := "a", rssi := (-40 : Int) } (by decide)
  exact h.2

/- ------------------------------------------------------------------ -/
/- wifi_manager.c: wfm_first_connect                                   -/
/- ------------------------------------------------------------------ -/

/-- `is_ssid_available` (wifi_manager.c): whether a name occurs in the
last scan result. -/
def is_ssid_available (scan : List ScanAp) (ssid : String) : Bool :=
  scan.any (fun a => a.ssid == ssid)

/-- Externally visible steps of `wfm_first_connect`: the initial
synchronous scan, the initial `wfm_stop_sta`, one connection attempt
(config applied + radio started + bounded wait) per candidate, and the
stop + wait-for-stop-confirmation after a failed attempt. -/
inductive FCAct where
  | scanSync
  | stopSta
  | attempt (ssid : String)
  | wifiStop
  | waitStopped
deriving DecidableEq

/-- The names attempted, in order, in a trace. -/
def attemptsOf : List FCAct → List String
  | [] => []
  | FCAct.attempt s :: t => s :: attemptsOf t
  | _ :: t => attemptsOf t

/-- The credential loop of `wfm_first_connect`.  `env i` tells whether
the bounded wait for credential index `i` sees the connected bit before
the failed bit (the outcome of the radio attempt, decided by the
event handler). -/
def firstConnectLoop (env : Nat → Bool) (scan : List ScanAp) :
    List Cred → Nat → Bool × List FCAct
  | [], _ => (false, [])
  | c :: cs, i =>
    if is_ssid_available scan c.ssid then
      (if env i then (true, [FCAct.attempt c.ssid])
       else
         ((firstConnectLoop env scan cs (i + 1)).1,
          FCAct.attempt c.ssid :: FCAct.wifiStop :: FCAct.waitStopped ::
            (firstConnectLoop env scan cs (i + 1)).2))
    else firstConnectLoop env scan cs (i + 1)

/-- `wfm_first_connect` (wifi_manager.c): fails fast on an empty saved
list, otherwise scans once, stops any previous station session, and
walks the saved credentials in stored order. -/
def wfm_first_connect (env : Nat → Bool) (scan : List ScanAp)
    (saved : List Cred) : Bool × List FCAct :=
  if saved.length = 0 then (false, [])
  else
    ((firstConnectLoop env scan saved 0).1,
     FCAct.scanSync :: FCAct.stopSta :: (firstConnectLoop env scan saved 0).2)

/-- The indexed saved credentials whose name appears in the scan — the
candidates the loop actually attempts. -/
def availCands (scan : List ScanAp) : List Cred → Nat → List (Nat × Cred)
  | [], _ => []
  | c :: cs, i =>
    if is_ssid_available scan c.ssid then
      (i, c) :: availCands scan cs (i + 1)
    else availCands scan cs (i + 1)

/-- All elements up to and including the first one satisfying `p`. -/
def takeThruFirst {α : Type} (p : α → Bool) : List α → List α
  | [] => []
  | x :: xs => if p x then [x] else x :: takeThruFirst p xs

/-- Checks that every attempt in a trace is either the last action of
the trace (the successful one) or is immediately followed by a radio
stop and a wait for the stop confirmation. -/
def stopsAfterFailedAttempts : List FCAct → Bool
  | [] => true
  | FCAct.attempt _ :: rest =>
    (match rest with
     | [] => true
     | FCAct.wifiStop :: FCAct.waitStopped :: r2 => stopsAfterFailedAttempts r2
     | _ => false)
  | _ :: rest => stopsAfterFailedAttempts rest

theorem firstConnectLoop_spec (env : Nat → Bool) (scan : List ScanAp) :
    ∀ (cs : List Cred) (i : Nat),
      (firstConnectLoop env scan cs i).1 =
        (availCands scan cs i).any (fun p => env p.1) ∧
      attemptsOf (firstConnectLoop env scan cs i).2 =
        (takeThruFirst (fun p => env p.1) (availCands scan cs i)).map
          (fun p => p.2.ssid) := by
  intro cs
  induction cs with
  | nil => intro i; exact ⟨rfl, rfl⟩
  | cons c cs ih =>
    intro i
    by_cases hav : is_ssid_available scan c.ssid
    · by_cases he : env i
      · constructor
        · simp [firstConnectLoop, availCands, hav, he]
        · simp [firstConnectLoop, availCands, takeThruFirst, attemptsOf, hav, he]
      · constructor
        · simp only [firstConnectLoop, availCands, if_pos hav, if_neg he,
            List.any_cons]
          simp [he, (ih (i + 1)).1]
        · simp only [firstConnectLoop, availCands, if_pos hav, if_neg he,
            attemptsOf, takeThruFirst]
          simp [he, (ih (i + 1)).2]
    · simp only [firstConnectLoop, availCands, if_neg hav]
      exact ih (i + 1)

theorem firstConnectLoop_stops (env : Nat → Bool) (scan : List ScanAp) :
    ∀ (cs : List Cred) (i : Nat),
      stopsAfterFailedAttempts (firstConnectLoop env scan cs i).2 = true := by
  intro cs
  induction cs with
  | nil => intro i; rfl
  | cons c cs ih =>
    intro i
    by_cases hav : is_ssid_available scan c.ssid
    · by_cases he : env i
      · simp [firstConnectLoop, hav, he, stopsAfterFailedAttempts]
      · simp only [firstConnectLoop, if_pos hav, if_neg he,
          stopsAfterFailedAttempts]
        exact ih (i + 1)
    · simp only [firstConnectLoop, if_neg hav]
      exact ih (i + 1)

theorem availCands_map_sublist (scan : List ScanAp) :
    ∀ (cs : List Cred) (i : Nat),
      ((availCands scan cs i).map (fun p => p.2)).Sublist cs := by
  intro cs
  induction cs with
  | nil => intro i; simp [availCands]
  | cons c cs ih =>
    intro i
    by_cases hav : is_ssid_available scan c.ssid
    · simp only [availCands, if_pos hav, List.map_cons]
      exact List.Sublist.cons₂ c (ih (i + 1))
    · simp only [availCands, if_neg hav]
      exact List.Sublist.cons c (ih (i + 1))

theorem availCands_available (scan : List ScanAp) :
    ∀ (cs : List Cred) (i : Nat),
      ∀ q ∈ availCands scan cs i, is_ssid_available scan q.2.ssid = true := by
  intro cs
  induction cs with
  | nil => intro i q hq; cases hq
  | cons c cs ih =>
    intro i q hq
    by_cases hav : is_ssid_available scan c.ssid
    · rw [availCands, if_pos hav] at hq
      rcases List.mem_cons.mp hq with rfl | hq
      · exact hav
      · exact ih (i + 1) q hq
    · rw [availCands, if_neg hav] at hq
      exact ih (i + 1) q hq

theorem takeThruFirst_sublist {α : Type} (p : α → Bool) :
    ∀ l : List α, (takeThruFirst p l).Sublist l := by
  intro l
  induction l with
  | nil => simp [takeThruFirst]
  | cons x xs ih =>
    by_cases hx : p x
    · simp only [takeThruFirst, if_pos hx]
      exact List.Sublist.cons₂ x (List.nil_sublist xs)
    · simp only [takeThruFirst, if_neg hx]
      exact List.Sublist.cons₂ x ih

theorem takeThruFirst_all {α : Type} (p : α → Bool) :
    ∀ l : List α, (∀ a ∈ l, ¬ p a = true) → takeThruFirst p l = l := by
  intro l
  induction l with
  | nil => intro _; rfl
  | cons x xs ih =>
    intro h
    have hx : ¬ p x = true := h x (List.mem_cons_self x xs)
    simp only [takeThruFirst, if_neg hx]
    rw [ih (fun a ha => h a (List.mem_cons_of_mem x ha))]

/-- C1: `wfm_first_connect` fails fast without scanning or attempting
anything when no credential is saved; otherwise it performs one scan,
walks the saved credentials in stored order skipping names absent from
the scan, attempts at most `n` candidates, confirms a radio stop after
every failed attempt before the next one begins, returns success exactly
when some available candidate's connected signal arrives first — the
attempts being precisely the available candidates up to and including
the first successful one — and attempts every available candidate when
it returns failure. -/
theorem wfm_first_connect_spec (env : Nat → Bool) (scan : List ScanAp)
    (saved : List Cred) (hn : saved.length ≤ WFM_MAX_CREDS) :
    (saved = [] → wfm_first_connect env scan saved = (false, [])) ∧
    (saved ≠ [] →
      (wfm_first_connect env scan saved).2.head? = some FCAct.scanSync) ∧
    ((wfm_first_connect env scan saved).1 =
      (availCands scan saved 0).any (fun p => env p.1)) ∧
    (attemptsOf (wfm_first_connect env scan saved).2 =
      (takeThruFirst (fun p => env p.1) (availCands scan saved 0)).map
        (fun p => p.2.ssid)) ∧
    ((wfm_first_connect env scan saved).1 = false →
      attemptsOf (wfm_first_connect env scan saved).2 =
        (availCands scan saved 0).map (fun p => p.2.ssid)) ∧
    ((attemptsOf (wfm_first_connect env scan saved).2).length ≤ saved.length) ∧
    (∀ s ∈ attemptsOf (wfm_first_connect env scan saved).2,
      is_ssid_available scan s = true) ∧
    ((attemptsOf (wfm_first_connect env scan saved).2).Sublist
      (saved.map (fun c => c.ssid))) ∧
    (stopsAfterFailedAttempts (wfm_first_connect env scan saved).2 = true) := by
  by_cases h0 : saved = []
  · subst h0
    refine ⟨fun _ => rfl, fun h => absurd rfl h, rfl, rfl, fun _ => rfl, ?_, ?_, ?_, rfl⟩
    · simp [wfm_first_connect, attemptsOf]
    · intro s hs
      simp [wfm_first_connect, attemptsOf] at hs
    · simp [wfm_first_connect, attemptsOf]
  · have hlen : ¬ saved.length = 0 := by
      intro hc
      exact h0 (List.length_eq_zero.mp hc)
    obtain ⟨hfst, hatt⟩ := firstConnectLoop_spec env scan saved 0
    have hunf1 : (wfm_first_connect env scan saved).1 =
        (firstConnectLoop env scan saved 0).1 := by
      simp [wfm_first_connect, h0, hlen]
    have hunf2 : (wfm_first_connect env scan saved).2 =
        FCAct.scanSync :: FCAct.stopSta :: (firstConnectLoop env scan saved 0).2 := by
      simp [wfm_first_connect, h0, hlen]
    have hattw : attemptsOf (wfm_first_connect env scan saved).2 =
        attemptsOf (firstConnectLoop env scan saved 0).2 := by
      rw [hunf2]
      rfl
    have hcands_len : (availCands scan saved 0).length ≤ saved.length := by
      have h := List.Sublist.length_le (availCands_map_sublist scan saved 0)
      simpa using h
    refine ⟨fun h => absurd h h0, ?_, ?_, ?_, ?_, ?_, ?_, ?_, ?_⟩
    · intro _
      rw [hunf2]
      rfl
    · rw [hunf1]
      exact hfst
    · rw [hattw]
      exact hatt
    · intro hfail
      rw [hunf1, hfst] at hfail
      rw [hattw, hatt, takeThruFirst_all _ _ (List.any_eq_false.mp hfail)]
    · rw [hattw, hatt]
      rw [List.length_map]
      exact le_trans
        (List.Sublist.length_le (takeThruFirst_sublist _ (availCands scan saved 0)))
        hcands_len
    · intro s hs
      rw [hattw, hatt] at hs
      rcases List.mem_map.mp hs with ⟨q, hq, hqe⟩
      have hq2 : q ∈ availCands scan saved 0 :=
        List.Sublist.subset (takeThruFirst_sublist _ _) hq
      rw [← hqe]
      exact availCands_available scan saved 0 q hq2
    · rw [hattw, hatt]
      have h1 : ((takeThruFirst (fun p => env p.1) (availCands scan saved 0)).map
          (fun p => p.2)).Sublist ((availCands scan saved 0).map (fun p => p.2)) :=
        List.Sublist.map _ (takeThruFirst_sublist _ _)
      have h2 := List.Sublist.trans h1 (availCands_map_sublist scan saved 0)
      have h3 := List.Sublist.map (fun c : Cred => c.ssid) h2
      simpa [List.map_map, Function.comp] using h3
    · rw [hunf2]
      have h : stopsAfterFailedAttempts
          (FCAct.scanSync :: FCAct.stopSta ::
            (firstConnectLoop env scan saved 0).2) =
          stopsAfterFailedAttempts (firstConnectLoop env scan saved 0).2 := rfl
      rw [h]
      exact firstConnectLoop_stops env scan saved 0

theorem wfm_first_connect_spec_witness :
    ([{ ssid := "x", pass := "p" }, { ssid := "a", pass := "q" }] :
        List Cred).length ≤ WFM_MAX_CREDS ∧
    attemptsOf (wfm_first_connect (fun i => i == 1) [{ ssid := "a", rssi := -40 }]
        [{ ssid := "x", pass := "p" }, { ssid := "a", pass := "q" }]).2 = ["a"] ∧
    (wfm_first_connect (fun i => i == 1) [{ ssid := "a", rssi := -40 }]
        [{ ssid := "x", pass := "p" }, { ssid := "a", pass := "q" }]).1 = true := by
  refine ⟨by decide, ?_, by decide⟩
  have h := (wfm_first_connect_spec (fun i => i == 1) [{ ssid := "a", rssi := -40 }]
      [{ ssid := "x", pass := "p" }, { ssid := "a", pass := "q" }] (by decide)).2.2.2.1
  rw [h]
  decide

/- ------------------------------------------------------------------ -/
/- wifi_manager.c: wfm_change_network and the disconnect classifier    -/
/- ------------------------------------------------------------------ -/

/-- `wfm_disc_reason_e` (wifi_manager.h). -/
inductive DiscReason where
  | discNone
  | wrongPassword
  | noAp
  | other
deriving DecidableEq

/-- The driver disconnect reason codes the event handler distinguishes
(wifi_event_handler, wifi_manager.c lines 148-176). -/
inductive WifiReasonCode where
  | authFail
  | authExpire
  | handshakeTimeout
  | assocExpire
  | noApFound
  | otherCode
deriving DecidableEq

/-- The classification switch of the WIFI_EVENT_STA_DISCONNECTED branch
of `wifi_event_handler`. -/
def classifyDisc : WifiReasonCode → DiscReason
  | WifiReasonCode.authFail => DiscReason.wrongPassword
  | WifiReasonCode.authExpire => DiscReason.wrongPassword
  | WifiReasonCode.handshakeTimeout => DiscReason.wrongPassword
  | WifiReasonCode.assocExpire => DiscReason.wrongPassword
  | WifiReasonCode.noApFound => DiscReason.noAp
  | WifiReasonCode.otherCode => DiscReason.other

/-- Which event-group signal a bounded wait observes first. -/
inductive WaitOutcome where
  | connected
  | failed (code : WifiReasonCode)
  | timeout
deriving DecidableEq

/-- The part of `wfm_t` that `wfm_change_network` reads and writes:
the connection-info snapshot, the current driver STA config, and the
`connected` / `last_disc` / `auto_reconnect` fields. -/
structure CnState where
  infoSsid : String
  infoPass : String
  cfgSsid : String
  cfgPass : String
  connected : Bool
  last_disc : DiscReason
  auto_reconnect : Bool
deriving DecidableEq

/-- Effect of the event handler on the state for the signal a bounded
wait observes: got-IP sets `connected` and snapshots the active config
into the info fields; a disconnect clears `connected` and records the
classified reason; a timeout changes nothing. -/
def applyWait (st : CnState) : WaitOutcome → CnState
  | WaitOutcome.connected =>
    { st with connected := true, infoSsid := st.cfgSsid, infoPass := st.cfgPass }
  | WaitOutcome.failed c =>
    { st with connected := false, last_disc := classifyDisc c }
  | WaitOutcome.timeout => st

/-- Environment of one `wfm_change_network` call: the disconnect event
(if any) raised by the initial `esp_wifi_disconnect`, the outcomes of
the two bounded waits, and whether the fallback `wfm_reconnect` run ends
connected. -/
structure CnEnv where
  discEvent : Option WifiReasonCode
  newOutcome : WaitOutcome
  revertOutcome : WaitOutcome
  reconnectConnects : Bool
deriving DecidableEq

/-- Driver calls made by `wfm_change_network`, in order. -/
inductive CnAct where
  | disconnect
  | setConfig (ssid pass : String)
  | connect
  | waitConn
  | reconnectProc
deriving DecidableEq

structure CnResult where
  ok : Bool
  st : CnState
  out_reason : Option DiscReason
  trace : List CnAct
  revert_connected : Bool
  invoked_reconnect : Bool
deriving DecidableEq

/-- `wfm_change_network` (wifi_manager.c): backs up the active
credential, disconnects, applies and tries the new one; on the connected
signal returns OK; otherwise restores the backup, reconnects to it,
writes `*out_reason = wfm->last_disc` after the revert wait, and runs
the full `wfm_reconnect` procedure when still disconnected.
`revert_connected` records the `connected` flag at the moment
`out_reason` is assigned, `invoked_reconnect` whether `wfm_reconnect`
was entered. -/
def wfm_change_network (env : CnEnv) (st0 : CnState) (newSsid newPass : String) :
    CnResult :=
  let st1 : CnState := { st0 with auto_reconnect := false }
  let prevSsid := st1.infoSsid
  let prevPass := st1.infoPass
  let st2 : CnState :=
    match env.discEvent with
    | some c => { st1 with connected := false, last_disc := classifyDisc c }
    | none => st1
  let st3 : CnState := { st2 with cfgSsid := newSsid, cfgPass := newPass }
  let st4 := applyWait st3 env.newOutcome
  match env.newOutcome with
  | WaitOutcome.connected =>
    { ok := true
      st := { st4 with auto_reconnect := true }
      out_reason := some DiscReason.discNone
      trace := [CnAct.disconnect, CnAct.setConfig newSsid newPass,
                CnAct.connect, CnAct.waitConn]
      revert_connected := true
      invoked_reconnect := false }
  | _ =>
    let st5 : CnState := { st4 with cfgSsid := prevSsid, cfgPass := prevPass }
    let st6 := applyWait st5 env.revertOutcome
    let inv : Bool := ! st6.connected
    let st7 : CnState :=
      if st6.connected then st6
      else { st6 with connected := env.reconnectConnects }
    { ok := false
      st := { st7 with auto_reconnect := true }
      out_reason := some st6.last_disc
      trace := [CnAct.disconnect, CnAct.setConfig newSsid newPass,
                CnAct.connect, CnAct.waitConn,
                CnAct.setConfig prevSsid prevPass, CnAct.connect,
                CnAct.waitConn] ++
               (if inv then [CnAct.reconnectProc] else [])
      revert_connected := st6.connected
      invoked_reconnect := inv }

/-- C2: whenever `wfm_change_network` fails, it has restored the
previous credential and issued a reconnect to it; if that revert still
leaves the device disconnected the full reconnect procedure is invoked
before returning; the call therefore never returns mid-connect — it ends
either connected or having run the fallback reconnect. -/
theorem wfm_change_network_revert (env : CnEnv) (st0 : CnState) (ns np : String)
    (h : (wfm_change_network env st0 ns np).ok = false) :
    ((wfm_change_network env st0 ns np).trace =
      [CnAct.disconnect, CnAct.setConfig ns np, CnAct.connect, CnAct.waitConn,
       CnAct.setConfig st0.infoSsid st0.infoPass, CnAct.connect, CnAct.waitConn] ++
      (if (wfm_change_network env st0 ns np).invoked_reconnect then
        [CnAct.reconnectProc] else [])) ∧
    ((wfm_change_network env st0 ns np).revert_connected = false →
      (wfm_change_network env st0 ns np).invoked_reconnect = true) ∧
    ((wfm_change_network env st0 ns np).invoked_reconnect = false →
      (wfm_change_network env st0 ns np).st.connected = true) ∧
    ((wfm_change_network env st0 ns np).st.connected = true ∨
      (wfm_change_network env st0 ns np).invoked_reconnect = true) := by
  rcases env with ⟨de, no, ro, rc⟩
  rcases st0 with ⟨is0, ip0, cs0, cp0, conn0, ld0, ar0⟩
  cases no <;> cases ro <;> cases de <;> cases conn0 <;> cases rc <;>
    simp_all [wfm_change_network, applyWait]

def stC2W : CnState :=
  { infoSsid := "home", infoPass := "hp", cfgSsid := "home", cfgPass := "hp",
    connected := true, last_disc := DiscReason.discNone, auto_reconnect := true }

def envC2W : CnEnv :=
  { discEvent := some WifiReasonCode.otherCode,
    newOutcome := WaitOutcome.failed WifiReasonCode.authFail,
    revertOutcome := WaitOutcome.failed WifiReasonCode.noApFound,
    reconnectConnects := false }

theorem wfm_change_network_revert_witness :
    (wfm_change_network envC2W stC2W "cafe" "cp").ok = false ∧
    ((wfm_change_network envC2W stC2W "cafe" "cp").st.connected = true ∨
      (wfm_change_network envC2W stC2W "cafe" "cp").invoked_reconnect = true) :=
  ⟨by decide,
   (wfm_change_network_revert envC2W stC2W "cafe" "cp" (by decide)).2.2.2⟩

def stC3 : CnState :=
  { infoSsid := "home", infoPass := "hp", cfgSsid := "home", cfgPass := "hp",
    connected := true, last_disc := DiscReason.discNone, auto_reconnect := true }

def envC3 : CnEnv :=
  { discEvent := some WifiReasonCode.otherCode,
    newOutcome := WaitOutcome.failed WifiReasonCode.authFail,
    revertOutcome := WaitOutcome.failed WifiReasonCode.noApFound,
    reconnectConnects := false }

/-- C3 counterexample to the claim as stated: the new network fails with
a wrong-secret classification, but the revert attempt then fails with a
network-not-found disconnect which overwrites `last_disc` before
`*out_reason = wfm->last_disc` runs, so the caller sees the revert's
reason, not the failed new-network attempt's. -/
theorem wfm_change_network_out_reason_counterexample :
    envC3.newOutcome = WaitOutcome.failed WifiReasonCode.authFail ∧
    classifyDisc WifiReasonCode.authFail = DiscReason.wrongPassword ∧
    (wfm_change_network envC3 stC3 "cafe" "cp").ok = false ∧
    (wfm_change_network envC3 stC3 "cafe" "cp").out_reason =
      some DiscReason.noAp ∧
    DiscReason.noAp ≠ DiscReason.wrongPassword := by
  decide

/-- C3 (amended): on a failed switch, `out_reason` receives the
manager's most recent recorded disconnect classification at return time:
the classification observed on the failed new-network attempt whenever
the revert attempt does not itself record a disconnect event (revert
connected or timed out), but the revert attempt's classification when
the revert also fails with a disconnect. -/
theorem wfm_change_network_out_reason (env : CnEnv) (st0 : CnState)
    (ns np : String) (c : WifiReasonCode)
    (hn : env.newOutcome = WaitOutcome.failed c) :
    (wfm_change_network env st0 ns np).ok = false ∧
    ((∀ c2, env.revertOutcome ≠ WaitOutcome.failed c2) →
      (wfm_change_network env st0 ns np).out_reason = some (classifyDisc c)) ∧
    (∀ c2, env.revertOutcome = WaitOutcome.failed c2 →
      (wfm_change_network env st0 ns np).out_reason = some (classifyDisc c2)) := by
  rcases env with ⟨de, no, ro, rc⟩
  simp only at hn
  subst hn
  refine ⟨?_, ?_, ?_⟩
  · simp [wfm_change_network]
  · intro hno
    cases ro with
    | connected => simp [wfm_change_network, applyWait]
    | failed c2 => exact absurd rfl (hno c2)
    | timeout => simp [wfm_change_network, applyWait]
  · intro c2 h2
    simp only at h2
    subst h2
    simp [wfm_change_network, applyWait]

theorem wfm_change_network_out_reason_witness :
    envC3.newOutcome = WaitOutcome.failed WifiReasonCode.authFail ∧
    (wfm_change_network envC3 stC3 "cafe" "cp").out_reason =
      some (classifyDisc WifiReasonCode.noApFound) :=
  ⟨rfl,
   (wfm_change_network_out_reason envC3 stC3 "cafe" "cp" WifiReasonCode.authFail
      rfl).2.2 WifiReasonCode.noApFound rfl⟩

/- ------------------------------------------------------------------ -/
/- web_application.c: change_wifi_network_task                         -/
/- ------------------------------------------------------------------ -/

/-- Effect of one task run on the credential store. -/
inductive StoreEff where
  | noop
  | add (ssid pass : String)
  | remove (ssid : String)
deriving DecidableEq

/-- Environment of one `change_wifi_network_task` run: the result of the
`wfm_change_network` call, the classified reason it wrote, whether
`wfm_is_connected` holds afterwards, and whether the messaging session
reconnects within the bounded 60 s wait. -/
structure CwEnv where
  changeOk : Bool
  reason : DiscReason
  wfmConnected : Bool
  mqttReconnected : Bool
deriving DecidableEq

/-- `strchr(payload, h)`: split at the first occurrence of the
character. -/
def splitFirstBar : List Char → Option (List Char × List Char)
  | [] => none
  | c :: rest =>
    if c = '|' then some ([], rest)
    else (splitFirstBar rest).map (fun p => (c :: p.1, p.2))

/-- The payload parsing of `change_wifi_network_task`: the first bar
character splits name from secret; no bar or an empty name is an invalid
payload. -/
def parsePayload (payload : String) : Option (String × String) :=
  match splitFirstBar payload.data with
  | none => none
  | some (s, p) => if s = [] then none else some (String.mk s, String.mk p)

/-- `change_wifi_network_task` (web_application.c): parses the payload,
switches networks, waits (bounded) for the messaging session, and
decides what happens to the credential store.  Returns the store effect
and the list of status publish requests made. -/
def change_wifi_network_task (env : CwEnv) (payload : Option String) :
    StoreEff × List String :=
  match payload with
  | none => (StoreEff.noop, ["invalid payload"])
  | some pl =>
    match parsePayload pl with
    | none => (StoreEff.noop, ["invalid payload"])
    | some (ssid, pass) =>
      if env.changeOk && env.wfmConnected then
        (if env.mqttReconnected then
          (StoreEff.add ssid pass, ["new wifi connected"])
         else (StoreEff.noop, []))
      else
        (if env.wfmConnected then
          (match env.reason with
           | DiscReason.wrongPassword =>
             (StoreEff.remove ssid, ["new wifi not connected - wrong password"])
           | DiscReason.noAp =>
             (StoreEff.noop, ["new wifi not connected - ssid not found"])
           | _ =>
             (StoreEff.noop, ["new wifi not connected - other reason"]))
         else (StoreEff.noop, []))

def envC5 : CwEnv :=
  { changeOk := false, reason := DiscReason.wrongPassword,
    wfmConnected := false, mqttReconnected := false }

/-- C5 counterexample to the claim as stated: the switch fails with a
classified wrong-secret reason but the revert also leaves the device
disconnected (`wfm_is_connected` false), so the task takes the
LCD-error branch and the failing name is NOT removed from the store. -/
theorem change_wifi_network_task_counterexample :
    envC5.changeOk = false ∧
    envC5.reason = DiscReason.wrongPassword ∧
    (change_wifi_network_task envC5 (some "net|pw")).1 = StoreEff.noop ∧
    StoreEff.noop ≠ StoreEff.remove "net" := by
  decide

/-- C5 (amended): the new credential is persisted exactly when the
switch, the post-switch connectivity check and the bounded messaging
reconnection all succeed; the failing name is removed exactly when the
switch failed with a wrong-secret classification AND the device is back
online after the revert; when the device is left disconnected, or on a
network-not-found or other classified failure, the store is untouched. -/
theorem change_wifi_network_task_spec (env : CwEnv) (pl ssid pass : String)
    (hp : parsePayload pl = some (ssid, pass)) :
    ((change_wifi_network_task env (some pl)).1 = StoreEff.add ssid pass ↔
      (env.changeOk = true ∧ env.wfmConnected = true ∧
        env.mqttReconnected = true)) ∧
    ((change_wifi_network_task env (some pl)).1 = StoreEff.remove ssid ↔
      (env.changeOk = false ∧ env.wfmConnected = true ∧
        env.reason = DiscReason.wrongPassword)) ∧
    (env.wfmConnected = false →
      (change_wifi_network_task env (some pl)).1 = StoreEff.noop) ∧
    (env.changeOk = false →
      (env.reason = DiscReason.noAp ∨ env.reason = DiscReason.other) →
      (change_wifi_network_task env (some pl)).1 = StoreEff.noop) := by
  rcases env with ⟨co, rs, wc, mq⟩
  simp only [change_wifi_network_task, hp]
  cases co <;> cases wc <;> cases mq <;> cases rs <;> simp_all

def envC5W : CwEnv :=
  { changeOk := true, reason := DiscReason.discNone,
    wfmConnected := true, mqttReconnected := true }

theorem change_wifi_network_task_spec_witness :
    parsePayload "net|pw" = some ("net", "pw") ∧
    (change_wifi_network_task envC5W (some "net|pw")).1 =
      StoreEff.add "net" "pw" := by
  refine ⟨by decide, ?_⟩
  exact ((change_wifi_network_task_spec envC5W "net|pw" "net" "pw"
      (by decide)).1).mpr (by decide)

end EspFw
